import Mathlib

/-!
A shallow embedding of `internal/api/client.go` from the `bb` Bitbucket CLI,
together with theorems settling the specification's claims about it.

Modelling conventions:
* Go strings are modelled as `List Char` (`Str`); Go reads response bodies as
  bytes, which we model character-wise (the inputs of interest are ASCII).
* The pieces of Go's standard library the client calls (`strings.TrimSpace`,
  `strings.TrimRight`, `net/url` parsing, serialisation, query encoding and
  `url.Values`) are translated here from their stdlib behaviour, restricted to
  the URL shapes the client produces: `scheme://host/path?query` references
  with at most the characters that `net/url` round-trips verbatim.  Where a
  theorem depends on that restriction it carries explicit hypotheses.
* The HTTP transport is an oracle (`World`) mapping a method and a built URL to
  either a transport failure or a response; JSON decoding of a body into a Go
  target value is an oracle `Str → Option α` (`encoding/json` itself is not
  modelled).  `http.Client`, contexts and header transmission do not influence
  the oracle: the claims under study quantify over all server behaviours.
-/

/-- Go strings, modelled as lists of characters. -/
abbrev Str := List Char

/-- Converts a Lean string literal to the `Str` model. -/
def str (s : String) : Str := s.data

/-- The whitespace test of Go's `unicode.IsSpace`, covering the Latin-1 and
common Unicode space characters (`strings.TrimSpace` trims these). -/
def goIsSpace (c : Char) : Bool :=
  c = ' ' || c = '\t' || c = '\n' || c = '\x0B' || c = '\x0C' || c = '\r' ||
  c = '\u0085' || c = '\u00A0'

/-- Drops leading whitespace, as the left half of `strings.TrimSpace`. -/
def trimLeftSpace : Str → Str
  | [] => []
  | c :: r => if goIsSpace c then trimLeftSpace r else c :: r

/-- Go's `strings.TrimSpace`: removes leading and trailing whitespace. -/
def goTrimSpace (s : Str) : Str := (trimLeftSpace (trimLeftSpace s).reverse).reverse

/-- Go's `strings.TrimRight(s, "/")`: removes every trailing slash. -/
def trimRightSlash (s : Str) : Str := (s.reverse.dropWhile (fun c => c = '/')).reverse

/-- Go's `strings.HasPrefix`. -/
def goStartsWith : Str → Str → Bool
  | [], _ => true
  | _ :: _, [] => false
  | p :: ps, s :: ss => p = s && goStartsWith ps ss

/-- Go's `url.Values`: a map from parameter keys to ordered value lists,
modelled as an association list (Go map keys are unique; theorems that need
uniqueness state it). -/
abbrev Values := List (Str × List Str)

/-- Equality of request-trace entries (method, target, query) is decidable;
registered explicitly to keep later instance searches small. -/
instance decEqTraceEntry : DecidableEq (Str × Str × Values) := inferInstance

/-- Looks a key up in a `Values`, returning its value list (`[]` when absent),
as indexing a Go map does. -/
def getVals : Values → Str → List Str
  | [], _ => []
  | (k', vs) :: rest, k => if k' = k then vs else getVals rest k

/-- Go's `url.Values.Add`: appends one value to the key's slice. -/
def addVal : Values → Str → Str → Values
  | [], k, v => [(k, [v])]
  | (k', vs) :: rest, k, v =>
      if k' = k then (k', vs ++ [v]) :: rest else (k', vs) :: addVal rest k v

/-- The nested loop of `buildURL`: `for k, vv := range query { for _, v := range
vv { q.Add(k, v) } }`. -/
def addAll (q : Values) (extra : Values) : Values :=
  extra.foldl (fun acc kvv => kvv.2.foldl (fun a v => addVal a kvv.1 v) acc) q

/-- The HTTP transport handle held by the client; `defaultClient` stands for
the package-level `http.DefaultClient`, `custom` for a caller-supplied one. -/
inductive Transport where
  | defaultClient : Transport
  | custom : Nat → Transport
deriving DecidableEq

/-- The `Client` struct of `client.go`. -/
structure Client where
  baseURL : Str
  token : Str
  username : Str
  userAgent : Str
  httpClient : Transport
deriving DecidableEq

/-- The `defaultUserAgent` constant. -/
def defaultUserAgent : Str := str "bb-cli/dev"

/-- `NewClientWithUser`: defaults an all-whitespace base URL, defaults a nil
transport, strips trailing slashes off the base URL and trims the username. -/
def newClientWithUser (baseURL username token : Str) (httpClient : Option Transport) :
    Client :=
  let baseURL := if goTrimSpace baseURL = [] then str "https://api.bitbucket.org/2.0"
    else baseURL
  let httpClient := match httpClient with
    | none => Transport.defaultClient
    | some t => t
  { baseURL := trimRightSlash baseURL
    token := token
    username := goTrimSpace username
    userAgent := defaultUserAgent
    httpClient := httpClient }

/-- `NewClient` delegates to `NewClientWithUser` with an empty username. -/
def newClient (baseURL token : Str) (httpClient : Option Transport) : Client :=
  newClientWithUser baseURL [] token httpClient

/-- The `Authorization` header value set by `Request`: `SetBasicAuth` is
modelled abstractly as carrying the user and password it base64-encodes. -/
inductive AuthScheme where
  | basic : Str → Str → AuthScheme
  | bearer : Str → AuthScheme
deriving DecidableEq

/-- The headers `Request` sets on the outgoing request. -/
structure Headers where
  accept : Option Str
  userAgent : Option Str
  authorization : Option AuthScheme
  contentType : Option Str
deriving DecidableEq

/-- The header-setting block of `Request`, line for line: `Accept` and
`User-Agent` unconditionally, then the auth decision nested under
`if c.token != ""`, then `Content-Type` only when a body is present. -/
def requestHeaders (c : Client) (hasBody : Bool) : Headers :=
  { accept := some (str "application/json")
    userAgent := some c.userAgent
    authorization :=
      if c.token ≠ [] then
        if c.username ≠ [] then some (AuthScheme.basic c.username c.token)
        else some (AuthScheme.bearer c.token)
      else none
    contentType := if hasBody then some (str "application/json") else none }

/-- Returns everything after the first occurrence of `ch` (or `[]` if absent),
as Go's `strings.Cut` tail. -/
def afterChar (ch : Char) (s : Str) : Str :=
  match s.dropWhile (fun c => c ≠ ch) with
  | [] => []
  | _ :: r => r

/-- A parsed URL, the fields of Go's `url.URL` the client touches. -/
structure GoURL where
  scheme : Str
  host : Str
  path : Str
  rawQuery : Str
deriving DecidableEq

/-- Splits `rest` (what follows `scheme://`) into host, path and raw query, as
`url.Parse` does for authority-carrying URLs without fragments. -/
def parseAfterScheme (scheme rest : Str) : GoURL :=
  let host := rest.takeWhile (fun c => c ≠ '/' && c ≠ '?')
  let tail := rest.drop host.length
  { scheme := scheme
    host := host
    path := tail.takeWhile (fun c => c ≠ '?')
    rawQuery := afterChar '?' tail }

/-- Go's `url.Parse`, restricted to the references the client builds: an
`http`/`https` URL is split into scheme, host, path and raw query; anything
else is kept as an opaque path-plus-query (no fragment handling — the claims'
inputs carry none, and `url.Parse` never fails on them). -/
def parseRef (s : Str) : GoURL :=
  if goStartsWith (str "https://") s then parseAfterScheme (str "https") (s.drop 8)
  else if goStartsWith (str "http://") s then parseAfterScheme (str "http") (s.drop 7)
  else
    { scheme := [], host := [], path := s.takeWhile (fun c => c ≠ '?'),
      rawQuery := afterChar '?' s }

/-- The characters `url.URL.String` leaves unescaped in a path (alphanumerics,
RFC 3986 unreserved marks and the sub-delims `net/url` accepts verbatim). -/
def pathSafeChar (c : Char) : Bool :=
  c.isAlphanum || c = '-' || c = '_' || c = '.' || c = '~' || c = '!' || c = '$' ||
  c = '&' || c = Char.ofNat 39 || c = '(' || c = ')' || c = '*' || c = '+' ||
  c = ',' || c = ';' || c = '=' || c = ':' || c = '@' || c = '/'

/-- Uppercase hexadecimal digit, as `net/url` percent-encoding uses. -/
def upperHexChar (n : Nat) : Char :=
  if n < 10 then Char.ofNat (48 + n) else Char.ofNat (55 + n)

/-- Percent-encodes one character (single-byte characters; the claims' inputs
are ASCII). -/
def percentEncode (c : Char) : Str :=
  ['%', upperHexChar (c.toNat / 16 % 16), upperHexChar (c.toNat % 16)]

/-- Path escaping as performed by `url.URL.String` on a parsed, unescaped
path: safe characters pass through, the rest are percent-encoded. -/
def escapePath (p : Str) : Str := (p.map (fun c =>
  if pathSafeChar c then [c] else percentEncode c)).flatten

/-- Go's `url.URL.String` for the URL shapes above: `scheme://host` when a
scheme is present, then the escaped path, then `?rawQuery` when non-empty. -/
def serializeURL (u : GoURL) : Str :=
  (if u.scheme = [] then [] else u.scheme ++ str "://" ++ u.host) ++
  escapePath u.path ++
  (if u.rawQuery = [] then [] else '?' :: u.rawQuery)

/-- The characters `url.QueryEscape` leaves unescaped. -/
def querySafeChar (c : Char) : Bool :=
  c.isAlphanum || c = '-' || c = '_' || c = '.' || c = '~'

/-- Go's `url.QueryEscape`: safe characters pass, space becomes `+`, the rest
are percent-encoded. -/
def queryEscape (s : Str) : Str := (s.map (fun c =>
  if querySafeChar c then [c] else if c = ' ' then ['+'] else percentEncode c)).flatten

/-- Go's `url.QueryUnescape`: decodes `+` and `%XX`, failing on a truncated or
non-hexadecimal escape. -/
def hexVal (c : Char) : Option Nat :=
  if '0' ≤ c ∧ c ≤ '9' then some (c.toNat - 48)
  else if 'a' ≤ c ∧ c ≤ 'f' then some (c.toNat - 87)
  else if 'A' ≤ c ∧ c ≤ 'F' then some (c.toNat - 55)
  else none

/-- Decodes a query component as `url.QueryUnescape` does. -/
def queryUnescape : Str → Option Str
  | [] => some []
  | '%' :: a :: b :: rest => do
      let ha ← hexVal a
      let hb ← hexVal b
      let r ← queryUnescape rest
      pure (Char.ofNat (ha * 16 + hb) :: r)
  | '%' :: _ => none
  | '+' :: rest => (queryUnescape rest).map (fun r => ' ' :: r)
  | c :: rest => (queryUnescape rest).map (fun r => c :: r)

/-- One iteration of Go's `url.ParseQuery` loop (Go ≥ 1.17, as `url.Query()`
uses it, discarding errors): a component containing `;` is dropped, an empty
component is skipped, otherwise it is cut at the first `=`, both halves are
unescaped (a failing unescape drops the pair) and the pair is added. -/
def parsePair (acc : Values) (comp : Str) : Values :=
  if comp.contains ';' then acc
  else if comp = [] then acc
  else
    let k := comp.takeWhile (fun c => c ≠ '=')
    let v := afterChar '=' comp
    match queryUnescape k, queryUnescape v with
    | some k', some v' => addVal acc k' v'
    | _, _ => acc

/-- Go's `url.ParseQuery` with errors discarded, i.e. what `url.Query()`
returns: the raw query split on `&`, each component folded in. -/
def parseQueryVals (s : Str) : Values := (s.splitOn '&').foldl parsePair []

/-- Lexicographic order on `Str` by code point, as Go string comparison sorts
the keys in `url.Values.Encode`. -/
def strLe : Str → Str → Bool
  | [], _ => true
  | _ :: _, [] => false
  | a :: as, b :: bs => if a = b then strLe as bs else decide (a.toNat < b.toNat)

/-- Insertion step of the key sort in `url.Values.Encode`. -/
def insertByKey (p : Str × List Str) : Values → Values
  | [] => [p]
  | q :: rest => if strLe p.1 q.1 then p :: q :: rest else q :: insertByKey p rest

/-- Sorts a `Values` by key (insertion sort; `Encode` sorts its keys). -/
def sortByKey (v : Values) : Values := v.foldr insertByKey []

/-- Go's `url.Values.Encode`: keys sorted, every `key=value` pair
query-escaped and joined with `&`. -/
def encodeVals (q : Values) : Str :=
  List.intercalate ['&']
    (((sortByKey q).map (fun kvv =>
      kvv.2.map (fun v => queryEscape kvv.1 ++ '=' :: queryEscape v))).flatten)

/-- The `buildURL` method of `client.go`, line for line: an absolute
`http(s)` reference keeps its URL and, when the caller query is non-empty,
merges the caller parameters into the existing ones; otherwise the trimmed
path is joined to the slash-trimmed base with a leading slash ensured, with
the same query handling. -/
def buildURL (c : Client) (path : Str) (query : Values) : Str :=
  if goStartsWith (str "http://") path || goStartsWith (str "https://") path then
    let u := parseRef path
    let u := if 0 < query.length then
        { u with rawQuery := encodeVals (addAll (parseQueryVals u.rawQuery) query) }
      else u
    serializeURL u
  else
    let base := trimRightSlash c.baseURL
    let t0 := goTrimSpace path
    let t := if goStartsWith (str "/") t0 then t0 else '/' :: t0
    let u := parseRef (base ++ t)
    if query.length = 0 then serializeURL u
    else serializeURL
      { u with rawQuery := encodeVals (addAll (parseQueryVals u.rawQuery) query) }

/-- The method/URL/headers/body-flag tuple `Request` hands to the transport. -/
structure GoRequest where
  method : Str
  url : Str
  headers : Headers
  hasBody : Bool
deriving DecidableEq

/-- The `Request` method: builds the URL and sets the headers (`url.Parse`
never fails on the reference shapes modelled here, so the error path of
`buildURL` does not arise). -/
def request (c : Client) (method path : Str) (query : Values) (hasBody : Bool) :
    GoRequest :=
  { method := method
    url := buildURL c path query
    headers := requestHeaders c hasBody
    hasBody := hasBody }

/-- An HTTP response as `DoJSON` consumes it: a status code and a body. -/
structure HTTPResponse where
  status : Nat
  body : Str
deriving DecidableEq

/-- What `httpClient.Do` yields: a transport failure or a response. -/
inductive FetchOutcome where
  | transportErr : Str → FetchOutcome
  | response : HTTPResponse → FetchOutcome
deriving DecidableEq

/-- The server/network oracle: maps the outgoing request to an outcome. -/
abbrev World := GoRequest → FetchOutcome

/-- The error taxonomy of the client: a wrapped transport error, an
`APIError{status, body}`, or a wrapped JSON decode error. -/
inductive ClientError where
  | transport : Str → ClientError
  | api : Nat → Str → ClientError
  | decodeFailure : ClientError
deriving DecidableEq

/-- Equality of `Except` results is decidable when both components are. -/
instance instDecEqExcept {e a : Type} [DecidableEq e] [DecidableEq a] :
    DecidableEq (Except e a)
  | Except.error x, Except.error y =>
      if h : x = y then Decidable.isTrue (congrArg Except.error h)
      else Decidable.isFalse (fun hc => h (by injection hc))
  | Except.error _, Except.ok _ => Decidable.isFalse (fun hc => Except.noConfusion hc)
  | Except.ok _, Except.error _ => Decidable.isFalse (fun hc => Except.noConfusion hc)
  | Except.ok x, Except.ok y =>
      if h : x = y then Decidable.isTrue (congrArg Except.ok h)
      else Decidable.isFalse (fun hc => h (by injection hc))

/-- The `Error()` method of `APIError`: `"api request failed: status <code>"`,
with `": <body>"` appended when the body is non-empty. -/
def apiErrorMessage (status : Nat) (body : Str) : Str :=
  if body = [] then str "api request failed: status " ++ (Nat.repr status).data
  else str "api request failed: status " ++ (Nat.repr status).data ++ str ": " ++ body

/-- The `DoJSON` method: performs the request, returns an `APIError` carrying
the whitespace-trimmed first 4096 bytes of the body on a status ≥ 400,
discards the body when no output target is given, and otherwise decodes the
body into the target (`out` is the decoder standing for the target and
`encoding/json`; `Option.some` in the result is the decoded value written to
the target). -/
def doJSON {α : Type} (world : World) (c : Client) (method path : Str)
    (query : Values) (hasBody : Bool) (out : Option (Str → Option α)) :
    Except ClientError (Option α) :=
  match world (request c method path query hasBody) with
  | FetchOutcome.transportErr m => Except.error (ClientError.transport m)
  | FetchOutcome.response r =>
      if 400 ≤ r.status then
        Except.error (ClientError.api r.status (goTrimSpace (r.body.take 4096)))
      else
        match out with
        | none => Except.ok none
        | some decode =>
            match decode r.body with
            | some a => Except.ok (some a)
            | none => Except.error ClientError.decodeFailure

/-- The `listResponse` struct: a page's `values` (opaque raw JSON records,
kept as strings) and its `next` link. -/
structure ListPage where
  values : List Str
  next : Str
deriving DecidableEq

/-- The zero value of `listResponse`, as `var page listResponse` starts. -/
def zeroPage : ListPage := { values := [], next := [] }

/-- The pagination loop of `GetAllValues`, with explicit fuel standing for the
number of iterations the Go `for` loop is allowed (the loop itself has no
bound; `none` means it has not terminated within the fuel).  The result pairs
Go's `([]json.RawMessage, error)` return — `(some all, none)` on success,
`(none, some err)` on failure, exactly the two `return` statements — with the
trace of requests issued, each recorded as (method, target, query). -/
def getAllValuesAux (decodePage : Str → Option ListPage) (world : World) (c : Client) :
    Nat → Str → Values → List Str →
    Option ((Option (List Str) × Option ClientError) × List (Str × Str × Values))
  | 0, next, _, all =>
    if next = [] then some ((some all, none), []) else none
  | fuel' + 1, next, currentQuery, all =>
    if next = [] then some ((some all, none), [])
    else
      match doJSON world c (str "GET") next currentQuery false (some decodePage) with
      | Except.error e => some ((none, some e), [(str "GET", next, currentQuery)])
      | Except.ok pageOpt =>
        let page := pageOpt.getD zeroPage
        match getAllValuesAux decodePage world c fuel' page.next [] (all ++ page.values) with
        | none => none
        | some (res, trace) => some (res, (str "GET", next, currentQuery) :: trace)

/-- `GetAllValues`: runs the pagination loop from the given path and query
with an empty accumulator. -/
def getAllValues (decodePage : Str → Option ListPage) (world : World) (c : Client)
    (fuel : Nat) (path : Str) (query : Values) :
    Option ((Option (List Str) × Option ClientError) × List (Str × Str × Values)) :=
  getAllValuesAux decodePage world c fuel path query []

/-- The successful fetch of one listing page, as `GetAllValues` sees it:
`DoJSON` with a `GET`, no body and the listing decoder returned this page. -/
def fetchPage (decodePage : Str → Option ListPage) (world : World) (c : Client)
    (u : Str) (q : Values) : Option ListPage :=
  match doJSON world c (str "GET") u q false (some decodePage) with
  | Except.ok (some p) => some p
  | _ => none

/-- A finite pagination chain: starting from a non-empty target `u` with query
`q`, each page is fetched successfully, every page but the last points at the
following fetch via a non-empty `next`, and the last page's `next` is empty. -/
inductive Chain (fetch : Str → Values → Option ListPage) :
    Str → Values → List ListPage → Prop
  | last : ∀ u q p, u ≠ [] → fetch u q = some p → p.next = [] →
      Chain fetch u q [p]
  | step : ∀ u q p ps, u ≠ [] → fetch u q = some p → p.next ≠ [] →
      Chain fetch p.next [] ps → Chain fetch u q (p :: ps)

/-- The request trace a chain should produce: the first request at the entry
target with the caller query, each later one at the previous page's `next`
with no query. -/
def chainTrace : Str → Values → List ListPage → List (Str × Str × Values)
  | _, _, [] => []
  | u, q, p :: ps => (str "GET", u, q) :: chainTrace p.next [] ps

/-- The loop state is about to issue a request at `t` after `n` successful
page fetches, having started at `s` (the loop's `(next, currentQuery)`
pair steps through successful fetches, resetting the query). -/
inductive ReachesN (fetch : Str → Values → Option ListPage) :
    Nat → Str × Values → Str × Values → Prop
  | refl : ∀ s, ReachesN fetch 0 s s
  | step : ∀ u q p n t, u ≠ [] → fetch u q = some p →
      ReachesN fetch n (p.next, []) t → ReachesN fetch (n + 1) (u, q) t

/-! ### Shared concrete instances used by the witnesses -/

/-- A concrete client for the concrete instances below. -/
def exClient : Client := newClientWithUser (str "https://h") [] (str "t") none

/-- First listing page of the concrete pagination chain. -/
def exPage1 : ListPage := { values := [str "v1", str "v2"], next := str "https://h/p2" }

/-- Second and last listing page of the concrete pagination chain. -/
def exPage2 : ListPage := { values := [str "v3"], next := [] }

/-- A concrete listing decoder recognising the two page bodies. -/
def exDecode : Str → Option ListPage := fun b =>
  if b = str "b1" then some exPage1
  else if b = str "b2" then some exPage2
  else none

/-! ### Claims C9, C10, C3: headers, constructor defaults, auth modes -/

/-- C9: every request built by `Request` carries `Content-Type:
application/json` exactly when a body is supplied, and carries `Accept:
application/json` and the fixed `bb-cli/dev` user agent unconditionally. -/
theorem request_contentType_iff_body (rawBase user tok : Str) (hc : Option Transport)
    (method path : Str) (query : Values) (hasBody : Bool) :
    ((request (newClientWithUser rawBase user tok hc) method path query hasBody).headers.contentType
        = some (str "application/json") ↔ hasBody = true) ∧
    (hasBody = false →
      (request (newClientWithUser rawBase user tok hc) method path query hasBody).headers.contentType
        = none) ∧
    (request (newClientWithUser rawBase user tok hc) method path query hasBody).headers.accept
      = some (str "application/json") ∧
    (request (newClientWithUser rawBase user tok hc) method path query hasBody).headers.userAgent
      = some (str "bb-cli/dev") := by
  refine ⟨?_, ?_, rfl, rfl⟩ <;> cases hasBody <;> simp [request, requestHeaders]

/-- Witness for `request_contentType_iff_body` at a concrete input. -/
theorem request_contentType_iff_body_example :
    ((request (newClientWithUser (str "https://h") [] (str "t") none) (str "POST")
        (str "/x") [] true).headers.contentType = some (str "application/json")) ∧
    ((request (newClientWithUser (str "https://h") [] (str "t") none) (str "GET")
        (str "/x") [] false).headers.contentType = none) := by
  constructor
  · exact (request_contentType_iff_body (str "https://h") [] (str "t") none (str "POST")
      (str "/x") [] true).1.mpr rfl
  · exact (request_contentType_iff_body (str "https://h") [] (str "t") none (str "GET")
      (str "/x") [] false).2.1 rfl

/-- C10: constructing a client never fails for any base URL/transport
combination — an all-whitespace base URL silently defaults to the Bitbucket
API root, a missing transport defaults to the package default client, a
supplied transport is kept, and `NewClient` is `NewClientWithUser` without a
username. -/
theorem newClientWithUser_defaults (rawBase user tok : Str) (hc : Option Transport) :
    (goTrimSpace rawBase = [] →
      (newClientWithUser rawBase user tok hc).baseURL = str "https://api.bitbucket.org/2.0") ∧
    (newClientWithUser rawBase user tok none).httpClient = Transport.defaultClient ∧
    (∀ t, (newClientWithUser rawBase user tok (some t)).httpClient = t) ∧
    newClient rawBase tok hc = newClientWithUser rawBase [] tok hc := by
  refine ⟨fun h => ?_, rfl, fun t => rfl, rfl⟩
  simp only [newClientWithUser]
  rw [if_pos h]
  decide

/-- Witness for `newClientWithUser_defaults` at a whitespace-only base URL. -/
theorem newClientWithUser_defaults_example :
    goTrimSpace (str "  ") = [] ∧
    (newClientWithUser (str "  ") [] (str "t") none).baseURL
      = str "https://api.bitbucket.org/2.0" :=
  ⟨by decide, (newClientWithUser_defaults (str "  ") [] (str "t") none).1 (by decide)⟩

/-- C3 counterexample: a client constructed with the non-empty username
`alice` but an empty token sends no `Authorization` header at all — the code
checks the token before the username, so the claim "whenever a username is
configured, Basic auth is used" fails. -/
theorem request_username_basic_claim_false :
    (request (newClientWithUser (str "https://h") (str "alice") [] none)
      (str "GET") (str "/x") [] false).headers.authorization = none ∧
    (request (newClientWithUser (str "https://h") (str "alice") [] none)
      (str "GET") (str "/x") [] false).headers.authorization
      ≠ some (AuthScheme.basic (str "alice") []) := by
  refine ⟨?_, ?_⟩ <;> decide

/-- C3 amended: Basic auth is used exactly when both the trimmed username and
the token are non-empty; a non-empty token with an empty trimmed username
gives Bearer auth; an empty token gives no `Authorization` header regardless
of the username. -/
theorem request_auth_modes (rawBase user tok : Str) (hc : Option Transport)
    (method path : Str) (query : Values) (hasBody : Bool) :
    (tok ≠ [] → goTrimSpace user ≠ [] →
      (request (newClientWithUser rawBase user tok hc) method path query hasBody).headers.authorization
        = some (AuthScheme.basic (goTrimSpace user) tok)) ∧
    (tok ≠ [] → goTrimSpace user = [] →
      (request (newClientWithUser rawBase user tok hc) method path query hasBody).headers.authorization
        = some (AuthScheme.bearer tok)) ∧
    (tok = [] →
      (request (newClientWithUser rawBase user tok hc) method path query hasBody).headers.authorization
        = none) := by
  refine ⟨fun ht hu => ?_, fun ht hu => ?_, fun ht => ?_⟩
  · simp [request, requestHeaders, newClientWithUser, ht, hu]
  · simp [request, requestHeaders, newClientWithUser, ht, hu]
  · simp [request, requestHeaders, newClientWithUser, ht]

/-- Witness for `request_auth_modes` at concrete credentials: Basic for
username `alice` with token `t`, Bearer for token alone, nothing without a
token. -/
theorem request_auth_modes_example :
    (request (newClientWithUser (str "b") (str "alice") (str "t") none)
      (str "GET") (str "/x") [] false).headers.authorization
      = some (AuthScheme.basic (str "alice") (str "t")) ∧
    (request (newClientWithUser (str "b") [] (str "t") none)
      (str "GET") (str "/x") [] false).headers.authorization
      = some (AuthScheme.bearer (str "t")) ∧
    (request (newClientWithUser (str "b") (str "bob") [] none)
      (str "GET") (str "/x") [] false).headers.authorization = none := by
  refine ⟨?_, ?_, ?_⟩
  · exact ((request_auth_modes (str "b") (str "alice") (str "t") none (str "GET")
      (str "/x") [] false).1 (by decide) (by decide)).trans (by decide)
  · exact (request_auth_modes (str "b") [] (str "t") none (str "GET")
      (str "/x") [] false).2.1 (by decide) (by decide)
  · exact (request_auth_modes (str "b") (str "bob") [] none (str "GET")
      (str "/x") [] false).2.2 (by decide)

/-! ### Claims C4, C5: the DoJSON error taxonomy -/

/-- Dropping leading whitespace never lengthens a string. -/
lemma trimLeftSpace_length_le (s : Str) : (trimLeftSpace s).length ≤ s.length := by
  induction s with
  | nil => simp [trimLeftSpace]
  | cons c r ih =>
      simp only [trimLeftSpace]
      split
      · exact Nat.le_succ_of_le ih
      · simp

/-- `strings.TrimSpace` never lengthens a string. -/
lemma goTrimSpace_length_le (s : Str) : (goTrimSpace s).length ≤ s.length := by
  unfold goTrimSpace
  calc (trimLeftSpace (trimLeftSpace s).reverse).reverse.length
      = (trimLeftSpace (trimLeftSpace s).reverse).length := List.length_reverse _
    _ ≤ (trimLeftSpace s).reverse.length := trimLeftSpace_length_le _
    _ = (trimLeftSpace s).length := List.length_reverse _
    _ ≤ s.length := trimLeftSpace_length_le s

/-- C4: on any response with status ≥ 400, `DoJSON` returns an `APIError`
whose body is the whitespace-trimmed first 4096 bytes of the response body —
hence at most 4 KiB — and whose message is `api request failed: status
<code>`, extended with `: <body>` exactly when the captured body is
non-empty. -/
theorem doJSON_apiError_format {α : Type} (world : World) (c : Client)
    (method path : Str) (query : Values) (hasBody : Bool)
    (out : Option (Str → Option α)) (r : HTTPResponse)
    (hw : world (request c method path query hasBody) = FetchOutcome.response r)
    (hst : 400 ≤ r.status) :
    doJSON world c method path query hasBody out
      = Except.error (ClientError.api r.status (goTrimSpace (r.body.take 4096))) ∧
    (goTrimSpace (r.body.take 4096)).length ≤ 4096 ∧
    apiErrorMessage r.status (goTrimSpace (r.body.take 4096))
      = str "api request failed: status " ++ (Nat.repr r.status).data ++
        (if goTrimSpace (r.body.take 4096) = [] then []
         else str ": " ++ goTrimSpace (r.body.take 4096)) := by
  refine ⟨?_, ?_, ?_⟩
  · unfold doJSON
    rw [hw]
    simp [hst]
  · calc (goTrimSpace (r.body.take 4096)).length
        ≤ (r.body.take 4096).length := goTrimSpace_length_le _
      _ ≤ 4096 := by
          rw [List.length_take]
          exact min_le_left _ _
  · unfold apiErrorMessage
    split
    · simp
    · simp [List.append_assoc]

/-- A concrete world whose every response is a 500 with a padded body. -/
def exWorld500 : World := fun _ => FetchOutcome.response { status := 500, body := str "  boom  " }

/-- Witness for `doJSON_apiError_format`: a 500 response with body
`"  boom  "` yields `APIError{500, "boom"}` with the documented message. -/
theorem doJSON_apiError_format_example :
    exWorld500 (request exClient (str "GET") (str "/x") [] false)
      = FetchOutcome.response { status := 500, body := str "  boom  " } ∧
    400 ≤ (500 : Nat) ∧
    doJSON exWorld500 exClient (str "GET") (str "/x") [] false
        (none : Option (Str → Option ListPage))
      = Except.error (ClientError.api 500 (str "boom")) ∧
    apiErrorMessage 500 (str "boom") = str "api request failed: status 500: boom" := by
  have h := doJSON_apiError_format (α := ListPage) exWorld500 exClient (str "GET") (str "/x")
    [] false none { status := 500, body := str "  boom  " } rfl (by decide)
  refine ⟨rfl, by decide, h.1.trans (congrArg Except.error (by decide)), by decide⟩

/-- C5: on a success-status response whose body the output target's decoder
rejects, `DoJSON` with a non-nil output target returns the decode error, a
kind disjoint from `APIError`. -/
theorem doJSON_decode_error_distinct {α : Type} (world : World) (c : Client)
    (method path : Str) (query : Values) (hasBody : Bool)
    (decode : Str → Option α) (r : HTTPResponse)
    (hw : world (request c method path query hasBody) = FetchOutcome.response r)
    (hst : r.status < 400)
    (hdec : decode r.body = none) :
    doJSON world c method path query hasBody (some decode)
      = Except.error ClientError.decodeFailure ∧
    ∀ s b, ClientError.decodeFailure ≠ ClientError.api s b := by
  constructor
  · unfold doJSON
    rw [hw]
    simp [Nat.not_le.mpr hst, hdec]
  · intro s b heq
    cases heq

/-- A concrete world answering 200 with the truncated JSON body. -/
def exWorldBadJSON : World :=
  fun _ => FetchOutcome.response { status := 200, body := str "\x7binvalid" }

/-- A concrete decoder that rejects the truncated body `{invalid` and accepts
anything else. -/
def exDecodeStrict : Str → Option ListPage := fun b =>
  if b = str "\x7binvalid" then none else some zeroPage

/-- Witness for `doJSON_decode_error_distinct`: a 200 response with body
`{invalid` yields the decode error, not an `APIError`. -/
theorem doJSON_decode_error_distinct_example :
    exWorldBadJSON (request exClient (str "GET") (str "/x") [] false)
      = FetchOutcome.response { status := 200, body := str "\x7binvalid" } ∧
    (200 : Nat) < 400 ∧
    exDecodeStrict (str "\x7binvalid") = none ∧
    doJSON exWorldBadJSON exClient (str "GET") (str "/x") [] false (some exDecodeStrict)
      = Except.error ClientError.decodeFailure ∧
    ∀ s b, ClientError.decodeFailure ≠ ClientError.api s b := by
  have h := doJSON_decode_error_distinct exWorldBadJSON exClient (str "GET") (str "/x")
    [] false exDecodeStrict { status := 200, body := str "\x7binvalid" } rfl (by decide)
    (by decide)
  exact ⟨rfl, by decide, by decide, h.1, h.2⟩

/-! ### Claim C1: pagination follows the chain and concatenates in order -/

/-- Unfolding of the pagination loop when no iteration budget remains. -/
lemma getAllValuesAux_zero (D : Str → Option ListPage) (W : World) (c : Client)
    (next : Str) (q : Values) (all : List Str) :
    getAllValuesAux D W c 0 next q all
      = if next = [] then some ((some all, none), []) else none := rfl

/-- Unfolding of one iteration of the pagination loop. -/
lemma getAllValuesAux_succ (D : Str → Option ListPage) (W : World) (c : Client)
    (fuel : Nat) (next : Str) (q : Values) (all : List Str) :
    getAllValuesAux D W c (fuel + 1) next q all
      = if next = [] then some ((some all, none), [])
        else
          match doJSON W c (str "GET") next q false (some D) with
          | Except.error e => some ((none, some e), [(str "GET", next, q)])
          | Except.ok pageOpt =>
            match getAllValuesAux D W c fuel (pageOpt.getD zeroPage).next []
                (all ++ (pageOpt.getD zeroPage).values) with
            | none => none
            | some (res, trace) => some (res, (str "GET", next, q) :: trace) := rfl

/-- A successful `fetchPage` means the underlying `DoJSON` succeeded with that
page. -/
lemma fetchPage_eq_some {D : Str → Option ListPage} {W : World} {c : Client}
    {u : Str} {q : Values} {p : ListPage} (h : fetchPage D W c u q = some p) :
    doJSON W c (str "GET") u q false (some D) = Except.ok (some p) := by
  rcases hd : doJSON W c (str "GET") u q false (some D) with e | po
  · unfold fetchPage at h
    rw [hd] at h
    simp at h
  · rcases po with _ | p'
    · unfold fetchPage at h
      rw [hd] at h
      simp at h
    · unfold fetchPage at h
      rw [hd] at h
      simp at h
      subst h
      rfl

/-- The expected trace has one entry per page. -/
lemma chainTrace_length : ∀ (u : Str) (q : Values) (ps : List ListPage),
    (chainTrace u q ps).length = ps.length
  | _, _, [] => rfl
  | u, q, p :: ps => by simp [chainTrace, chainTrace_length]

/-- Running the loop along a chain of pages, from any accumulator, appends the
concatenated page values and issues exactly the chain's requests. -/
lemma getAllValuesAux_chain {D : Str → Option ListPage} {W : World} {c : Client}
    {u : Str} {q : Values} {pages : List ListPage}
    (h : Chain (fetchPage D W c) u q pages) :
    ∀ acc, getAllValuesAux D W c pages.length u q acc
      = some ((some (acc ++ (pages.map ListPage.values).flatten), none),
          chainTrace u q pages) := by
  induction h with
  | last u q p hu hf hn =>
      intro acc
      have e1 : ([p] : List ListPage).length = 0 + 1 := rfl
      rw [e1, getAllValuesAux_succ, if_neg hu, fetchPage_eq_some hf]
      simp [getAllValuesAux_zero, hn, chainTrace]
  | step u q p ps hu hf hn hch ih =>
      intro acc
      have e1 : (p :: ps : List ListPage).length = ps.length + 1 := rfl
      rw [e1, getAllValuesAux_succ, if_neg hu, fetchPage_eq_some hf]
      simp only [Option.getD_some]
      rw [ih (acc ++ p.values)]
      simp [chainTrace, List.append_assoc]

/-- C1: for every finite chain of pages in which each page's `next` is the
following page's URL and the last `next` is empty, `GetAllValues` returns the
concatenation of all pages' values in page order, and its request trace is
exactly one `GET` per page, sequentially in chain order — the first at the
entry path with the caller query, each later one at the previous page's
`next`. -/
theorem getAllValues_chain_concat (D : Str → Option ListPage) (W : World) (c : Client)
    (path : Str) (query : Values) (pages : List ListPage)
    (h : Chain (fetchPage D W c) path query pages) :
    getAllValues D W c pages.length path query
      = some ((some ((pages.map ListPage.values).flatten), none),
          chainTrace path query pages) ∧
    (chainTrace path query pages).length = pages.length := by
  refine ⟨?_, chainTrace_length path query pages⟩
  have hx := getAllValuesAux_chain h []
  simpa [getAllValues] using hx

/-- A concrete two-page server for the pagination witnesses. -/
def exWorldPages : World := fun req =>
  if req.url = str "https://h/p1" then FetchOutcome.response { status := 200, body := str "b1" }
  else if req.url = str "https://h/p2" then FetchOutcome.response { status := 200, body := str "b2" }
  else FetchOutcome.response { status := 404, body := [] }

/-- Witness for `getAllValues_chain_concat`: a concrete two-page chain yields
the three values in order with one `GET` per page. -/
theorem getAllValues_chain_concat_example :
    Chain (fetchPage exDecode exWorldPages exClient) (str "https://h/p1") []
      [exPage1, exPage2] ∧
    getAllValues exDecode exWorldPages exClient 2 (str "https://h/p1") []
      = some ((some [str "v1", str "v2", str "v3"], none),
          [(str "GET", str "https://h/p1", ([] : Values)),
           (str "GET", str "https://h/p2", ([] : Values))]) := by
  have hch : Chain (fetchPage exDecode exWorldPages exClient) (str "https://h/p1") []
      [exPage1, exPage2] :=
    Chain.step _ _ _ _ (by decide) (by decide) (by decide)
      (Chain.last _ _ _ (by decide) (by decide) (by decide))
  refine ⟨hch, ?_⟩
  have h := (getAllValues_chain_concat exDecode exWorldPages exClient
    (str "https://h/p1") [] [exPage1, exPage2] hch).1
  exact h.trans (by decide)

/-! ### Claim C2: a failure on page N discards pages 1..N-1 -/

/-- If the loop reaches a request that fails, the whole run returns that
error with a nil value list — whatever was already accumulated — after
exactly the successful fetches plus the failing request. -/
lemma getAllValuesAux_reaches_error {D : Str → Option ListPage} {W : World} {c : Client}
    {n : Nat} {s t : Str × Values} {e : ClientError}
    (hr : ReachesN (fetchPage D W c) n s t) :
    t.1 ≠ [] →
    doJSON W c (str "GET") t.1 t.2 false (some D) = Except.error e →
    ∀ acc fuel, n < fuel →
      ∃ trace, getAllValuesAux D W c fuel s.1 s.2 acc = some ((none, some e), trace) ∧
        trace.length = n + 1 := by
  induction hr with
  | refl s =>
      intro ht he acc fuel hf
      obtain ⟨fuel', rfl⟩ : ∃ f, fuel = f + 1 := ⟨fuel - 1, (Nat.succ_pred_eq_of_pos hf).symm⟩
      refine ⟨[(str "GET", s.1, s.2)], ?_, rfl⟩
      rw [getAllValuesAux_succ, if_neg ht, he]
  | step u q p n t hu hf hrec ih =>
      intro ht he acc fuel hfuel
      obtain ⟨fuel', rfl⟩ : ∃ f, fuel = f + 1 :=
        ⟨fuel - 1, (Nat.succ_pred_eq_of_pos (Nat.lt_of_le_of_lt (Nat.zero_le _) hfuel)).symm⟩
      obtain ⟨trace', h1, h2⟩ := ih ht he (acc ++ p.values) fuel' (Nat.lt_of_succ_lt_succ hfuel)
      refine ⟨(str "GET", u, q) :: trace', ?_, by simp [h2]⟩
      rw [getAllValuesAux_succ, if_neg hu, fetchPage_eq_some hf]
      simp only [Option.getD_some]
      rw [h1]

/-- C2: if the pagination walk fetches some pages successfully and then the
next page request fails with error `e`, `GetAllValues` returns `(nil, e)` —
the values of the pages already fetched are discarded, no partial sequence is
returned — after issuing the successful requests plus the failing one. -/
theorem getAllValues_midstream_failure_discards (D : Str → Option ListPage) (W : World)
    (c : Client) (path : Str) (query : Values) (u' : Str) (q' : Values)
    (n : Nat) (e : ClientError) (fuel : Nat)
    (hr : ReachesN (fetchPage D W c) n (path, query) (u', q'))
    (hu : u' ≠ [])
    (he : doJSON W c (str "GET") u' q' false (some D) = Except.error e)
    (hfuel : n < fuel) :
    ∃ trace, getAllValues D W c fuel path query = some ((none, some e), trace) ∧
      trace.length = n + 1 :=
  getAllValuesAux_reaches_error hr hu he [] fuel hfuel

/-- A concrete server whose first page succeeds and whose second page fails
with a 500. -/
def exWorldFail : World := fun req =>
  if req.url = str "https://h/p1" then FetchOutcome.response { status := 200, body := str "b1" }
  else FetchOutcome.response { status := 500, body := str "err" }

/-- Witness for `getAllValues_midstream_failure_discards`: the first page
succeeds, the second returns a 500, and the run yields `(nil, APIError 500)`
with two requests issued and no partial values. -/
theorem getAllValues_midstream_failure_discards_example :
    ReachesN (fetchPage exDecode exWorldFail exClient) 1
      (str "https://h/p1", ([] : Values)) (str "https://h/p2", ([] : Values)) ∧
    str "https://h/p2" ≠ ([] : Str) ∧
    doJSON exWorldFail exClient (str "GET") (str "https://h/p2") [] false (some exDecode)
      = Except.error (ClientError.api 500 (str "err")) ∧
    (1 : Nat) < 2 ∧
    ∃ trace, getAllValues exDecode exWorldFail exClient 2 (str "https://h/p1") []
        = some ((none, some (ClientError.api 500 (str "err"))), trace) ∧
      trace.length = 1 + 1 := by
  have hr : ReachesN (fetchPage exDecode exWorldFail exClient) 1
      (str "https://h/p1", ([] : Values)) (str "https://h/p2", ([] : Values)) :=
    ReachesN.step _ _ exPage1 0 _ (by decide) (by decide) (ReachesN.refl _)
  refine ⟨hr, by decide, by decide, by decide, ?_⟩
  exact getAllValues_midstream_failure_discards exDecode exWorldFail exClient
    (str "https://h/p1") [] (str "https://h/p2") [] 1
    (ClientError.api 500 (str "err")) 2 hr (by decide) (by decide) (by decide)

/-! ### Claim C8: the caller query is attached only to the first request -/

/-- Every request issued by a loop run that starts with an empty query
carries an empty query: the loop only ever passes `nil` onward. -/
lemma getAllValuesAux_nil_query_trace {D : Str → Option ListPage} {W : World} {c : Client} :
    ∀ (fuel : Nat) (u : Str) (acc : List Str) res trace,
      getAllValuesAux D W c fuel u [] acc = some (res, trace) →
      ∀ x ∈ trace, x.2.2 = ([] : Values) := by
  intro fuel
  induction fuel with
  | zero =>
      intro u acc res trace h
      rw [getAllValuesAux_zero] at h
      split at h
      · injection h with h'
        injection h' with h1 h2
        subst h2
        intro x hx
        cases hx
      · cases h
  | succ fuel ih =>
      intro u acc res trace h
      rw [getAllValuesAux_succ] at h
      split at h
      · injection h with h'
        injection h' with h1 h2
        subst h2
        intro x hx
        cases hx
      · rcases hd : doJSON W c (str "GET") u [] false (some D) with e | po
        · rw [hd] at h
          simp only [] at h
          injection h with h'
          injection h' with h1 h2
          subst h2
          intro x hx
          rcases List.mem_cons.mp hx with rfl | hx
          · rfl
          · cases hx
        · rw [hd] at h
          simp only [] at h
          rcases hrec : getAllValuesAux D W c fuel (po.getD zeroPage).next []
              (acc ++ (po.getD zeroPage).values) with _ | rt
          · rw [hrec] at h
            cases h
          · rw [hrec] at h
            rcases rt with ⟨res', trace'⟩
            simp only [] at h
            injection h with h'
            injection h' with h1 h2
            subst h2
            intro x hx
            rcases List.mem_cons.mp hx with rfl | hx
            · rfl
            · exact ih _ _ _ _ hrec x hx

/-- C8: in every `GetAllValues` run that terminates, the caller-supplied
query parameters travel only on the first request; every subsequent request
in the trace goes to the server-supplied `next` target with an empty query. -/
theorem getAllValues_query_only_first (D : Str → Option ListPage) (W : World) (c : Client)
    (fuel : Nat) (path : Str) (query : Values) (res : Option (List Str) × Option ClientError)
    (trace : List (Str × Str × Values))
    (h : getAllValues D W c fuel path query = some (res, trace)) :
    trace = [] ∨
    ∃ rest, trace = (str "GET", path, query) :: rest ∧ ∀ x ∈ rest, x.2.2 = ([] : Values) := by
  unfold getAllValues at h
  rcases fuel with _ | fuel
  · rw [getAllValuesAux_zero] at h
    split at h
    · left
      injection h with h'
      injection h' with h1 h2
      exact h2.symm
    · cases h
  · rw [getAllValuesAux_succ] at h
    split at h
    · left
      injection h with h'
      injection h' with h1 h2
      exact h2.symm
    · rcases hd : doJSON W c (str "GET") path query false (some D) with e | po
      · rw [hd] at h
        simp only [] at h
        injection h with h'
        injection h' with h1 h2
        right
        refine ⟨[], h2.symm, ?_⟩
        intro x hx
        cases hx
      · rw [hd] at h
        simp only [] at h
        rcases hrec : getAllValuesAux D W c fuel (po.getD zeroPage).next []
            (([] : List Str) ++ (po.getD zeroPage).values) with _ | rt
        · rw [hrec] at h
          cases h
        · rw [hrec] at h
          rcases rt with ⟨res', trace'⟩
          simp only [] at h
          injection h with h'
          injection h' with h1 h2
          right
          refine ⟨trace', h2.symm, ?_⟩
          exact getAllValuesAux_nil_query_trace fuel _ _ _ _ hrec

/-- A concrete server accepting a filtered first request and a plain second
page, for the query-propagation witness. -/
def exWorldFiltered : World := fun req =>
  if req.url = str "https://h/p1?k=1" then
    FetchOutcome.response { status := 200, body := str "b1" }
  else if req.url = str "https://h/p2" then
    FetchOutcome.response { status := 200, body := str "b2" }
  else FetchOutcome.response { status := 404, body := [] }

/-- Witness for `getAllValues_query_only_first`: with a caller query `k=1`,
the first request carries it and the second request, at the `next` URL,
carries none. -/
theorem getAllValues_query_only_first_example :
    (getAllValues exDecode exWorldFiltered exClient 2 (str "https://h/p1")
        [(str "k", [str "1"])]
      = some ((some [str "v1", str "v2", str "v3"], none),
          [(str "GET", str "https://h/p1", [(str "k", [str "1"])]),
           (str "GET", str "https://h/p2", ([] : Values))])) ∧
    (([(str "GET", str "https://h/p1", [(str "k", [str "1"])]),
       (str "GET", str "https://h/p2", ([] : Values))] :
         List (Str × Str × Values)) = [] ∨
     ∃ rest, ([(str "GET", str "https://h/p1", [(str "k", [str "1"])]),
         (str "GET", str "https://h/p2", ([] : Values))] :
           List (Str × Str × Values))
         = (str "GET", str "https://h/p1", [(str "k", [str "1"])]) :: rest ∧
       ∀ x ∈ rest, x.2.2 = ([] : Values)) := by
  have h : getAllValues exDecode exWorldFiltered exClient 2 (str "https://h/p1")
      [(str "k", [str "1"])]
      = some ((some [str "v1", str "v2", str "v3"], none),
          [(str "GET", str "https://h/p1", [(str "k", [str "1"])]),
           (str "GET", str "https://h/p2", ([] : Values))]) := by decide
  exact ⟨h, getAllValues_query_only_first exDecode exWorldFiltered exClient 2
    (str "https://h/p1") [(str "k", [str "1"])] _ _ h⟩

/-! ### Claim C6: query merging on absolute URLs -/

/-- The effect of `Values.Add` on lookups: the added value lands at the end of
its own key's list and no other key changes. -/
lemma getVals_addVal (q : Values) (k v k' : Str) :
    getVals (addVal q k v) k' = if k = k' then getVals q k' ++ [v] else getVals q k' := by
  induction q with
  | nil =>
      by_cases h : k = k' <;> simp [addVal, getVals, h]
  | cons hd tl ih =>
      rcases hd with ⟨k0, vs0⟩
      rw [show addVal ((k0, vs0) :: tl) k v
          = if k0 = k then (k0, vs0 ++ [v]) :: tl else (k0, vs0) :: addVal tl k v from rfl]
      by_cases h0 : k0 = k
      · rw [if_pos h0]
        subst h0
        by_cases h : k0 = k'
        · subst h
          rw [show getVals ((k0, vs0 ++ [v]) :: tl) k0 = vs0 ++ [v] from by simp [getVals],
            if_pos rfl,
            show getVals ((k0, vs0) :: tl) k0 = vs0 from by simp [getVals]]
        · rw [show getVals ((k0, vs0 ++ [v]) :: tl) k' = getVals tl k' from by
              simp [getVals, h],
            if_neg h,
            show getVals ((k0, vs0) :: tl) k' = getVals tl k' from by simp [getVals, h]]
      · rw [if_neg h0,
          show getVals ((k0, vs0) :: addVal tl k v) k'
            = if k0 = k' then vs0 else getVals (addVal tl k v) k' from rfl]
        by_cases h : k0 = k'
        · have hkk : ¬ k = k' := fun hh => h0 (h.trans hh.symm)
          rw [if_pos h, if_neg hkk,
            show getVals ((k0, vs0) :: tl) k' = vs0 from by simp [getVals, h]]
        · rw [if_neg h, ih,
            show getVals ((k0, vs0) :: tl) k' = getVals tl k' from by simp [getVals, h]]

/-- Adding a whole value list under one key appends it to that key's values
and leaves every other key unchanged. -/
lemma getVals_foldl_addVal (k : Str) (vs : List Str) : ∀ (q : Values) (k' : Str),
    getVals (vs.foldl (fun a v => addVal a k v) q) k'
      = if k = k' then getVals q k' ++ vs else getVals q k' := by
  induction vs with
  | nil =>
      intro q k'
      by_cases h : k = k' <;> simp [h]
  | cons v vs ih =>
      intro q k'
      simp only [List.foldl_cons]
      rw [ih]
      by_cases h : k = k' <;> simp [getVals_addVal, h]

/-- A key that does not occur in a `Values` looks up to the empty list. -/
lemma getVals_eq_nil_of_not_mem (q : Values) (k : Str) (h : k ∉ q.map Prod.fst) :
    getVals q k = [] := by
  induction q with
  | nil => rfl
  | cons hd tl ih =>
      rcases hd with ⟨k0, vs0⟩
      simp only [List.map_cons, List.mem_cons] at h
      push_neg at h
      rw [show getVals ((k0, vs0) :: tl) k = if k0 = k then vs0 else getVals tl k from rfl]
      rw [if_neg (fun hh => h.1 hh.symm), ih h.2]

/-- The merge loop of `buildURL` unions the two parameter sets: for every key,
the merged values are the existing ones followed by the caller's (the caller
set having unique keys, as a Go map does). -/
lemma getVals_addAll (q e : Values) (he : (e.map Prod.fst).Nodup) (k : Str) :
    getVals (addAll q e) k = getVals q k ++ getVals e k := by
  induction e generalizing q with
  | nil => simp [addAll, getVals]
  | cons hd tl ih =>
      rcases hd with ⟨k0, vs0⟩
      simp only [List.map_cons, List.nodup_cons] at he
      have h1 : addAll q ((k0, vs0) :: tl)
          = addAll (vs0.foldl (fun a v => addVal a k0 v) q) tl := rfl
      rw [h1, ih (vs0.foldl (fun a v => addVal a k0 v) q) he.2, getVals_foldl_addVal]
      by_cases h : k0 = k
      · subst h
        rw [if_pos rfl,
          show getVals ((k0, vs0) :: tl) k0 = vs0 from by simp [getVals],
          getVals_eq_nil_of_not_mem tl k0 he.1]
        simp
      · rw [if_neg h,
          show getVals ((k0, vs0) :: tl) k = getVals tl k from by simp [getVals, h]]

/-- C6 counterexample: the absolute target `https://h/x?a=1;2` carries the
pre-existing query component `a=1;2`, but `url.Query()` (Go ≥ 1.17) drops any
component containing a semicolon, so the built URL loses it entirely — a
pre-existing parameter is dropped, contradicting the claim. -/
theorem buildURL_semicolon_param_dropped :
    buildURL exClient (str "https://h/x?a=1;2") [(str "page", [str "2"])]
      = str "https://h/x?page=2" ∧
    (str "a=1;2")
      ∈ (parseRef (str "https://h/x?a=1;2")).rawQuery.splitOn '&' ∧
    ¬ (str "a=1;2")
      ∈ (parseRef (buildURL exClient (str "https://h/x?a=1;2")
          [(str "page", [str "2"])])).rawQuery.splitOn '&' := by
  refine ⟨by decide, by decide, by decide⟩

/-- C6 amended: for an absolute `http(s)` target and a non-empty caller query
with unique keys, the built URL carries the merge of the target's parameters
as parsed by `url.Query()` with the caller's — for every key the merged
values are the parsed existing ones followed by the caller's, so nothing that
`url.Query()` parses is replaced or dropped (components the re-parse rejects,
e.g. ones containing `;`, are dropped). -/
theorem buildURL_absolute_query_union (c : Client) (p : Str) (cq : Values)
    (habs : (goStartsWith (str "http://") p || goStartsWith (str "https://") p) = true)
    (hne : 0 < cq.length)
    (hnd : (cq.map Prod.fst).Nodup) :
    buildURL c p cq
      = serializeURL { parseRef p with
          rawQuery := encodeVals (addAll (parseQueryVals (parseRef p).rawQuery) cq) } ∧
    ∀ k, getVals (addAll (parseQueryVals (parseRef p).rawQuery) cq) k
        = getVals (parseQueryVals (parseRef p).rawQuery) k ++ getVals cq k := by
  constructor
  · unfold buildURL
    rw [if_pos habs]
    simp [hne]
  · intro k
    exact getVals_addAll _ _ hnd k

/-- Witness for `buildURL_absolute_query_union`: the spec's own example,
`https://h/x?from=next` plus caller `page=2`, keeps `from=next` and gains
`page=2`. -/
theorem buildURL_absolute_query_union_example :
    (goStartsWith (str "http://") (str "https://h/x?from=next")
      || goStartsWith (str "https://") (str "https://h/x?from=next")) = true ∧
    0 < ([(str "page", [str "2"])] : Values).length ∧
    (([(str "page", [str "2"])] : Values).map Prod.fst).Nodup ∧
    buildURL exClient (str "https://h/x?from=next") [(str "page", [str "2"])]
      = str "https://h/x?from=next&page=2" ∧
    getVals (addAll (parseQueryVals (parseRef (str "https://h/x?from=next")).rawQuery)
        [(str "page", [str "2"])]) (str "from") = [str "next"] ∧
    getVals (addAll (parseQueryVals (parseRef (str "https://h/x?from=next")).rawQuery)
        [(str "page", [str "2"])]) (str "page") = [str "2"] := by
  have h := buildURL_absolute_query_union exClient (str "https://h/x?from=next")
    [(str "page", [str "2"])] (by decide) (by decide) (by decide)
  refine ⟨by decide, by decide, by decide, h.1.trans (by decide), ?_, ?_⟩
  · exact (h.2 (str "from")).trans (by decide)
  · exact (h.2 (str "page")).trans (by decide)

/-! ### Claim C7: joining a relative path to the base URL -/

/-- `takeWhile` passes over a block whose elements all satisfy the predicate. -/
lemma takeWhile_all_append {α : Type} (p : α → Bool) (l r : List α)
    (h : ∀ a ∈ l, p a = true) :
    (l ++ r).takeWhile p = l ++ r.takeWhile p := by
  induction l with
  | nil => simp
  | cons a as ih =>
      have hpa : p a = true := h a (List.mem_cons_self a as)
      simp only [List.cons_append, List.takeWhile_cons, hpa, if_true]
      rw [ih (fun x hx => h x (List.mem_cons_of_mem a hx))]

/-- Members of `dropWhile`'s result are members of the original list. -/
lemma mem_of_mem_dropWhile {α : Type} {p : α → Bool} {l : List α} {x : α}
    (hx : x ∈ l.dropWhile p) : x ∈ l := by
  induction l with
  | nil => simp at hx
  | cons a as ih =>
      rw [List.dropWhile_cons] at hx
      split at hx
      · exact List.mem_cons_of_mem a (ih hx)
      · exact hx

/-- `url.URL.String` reproduces a path made of safe characters verbatim. -/
lemma escapePath_all_safe (p : Str) (h : ∀ ch ∈ p, pathSafeChar ch = true) :
    escapePath p = p := by
  induction p with
  | nil => rfl
  | cons a as ih =>
      have hpa : pathSafeChar a = true := h a (List.mem_cons_self a as)
      rw [show escapePath (a :: as)
          = (if pathSafeChar a then [a] else percentEncode a) ++ escapePath as from by
            simp [escapePath]]
      rw [if_pos hpa, ih (fun x hx => h x (List.mem_cons_of_mem a hx))]
      rfl

/-- `url.Parse` on a well-formed `scheme://host`-prefixed reference (host free
of `/` and `?`, path part empty or slash-led) recovers exactly the scheme,
host, path and raw query. -/
lemma parseRef_wellFormed (sch host rest : Str)
    (hsch : sch = str "http" ∨ sch = str "https")
    (hhost : ∀ ch ∈ host, (ch ≠ '/' && ch ≠ '?') = true)
    (hrest : rest = [] ∨ ∃ r', rest = '/' :: r') :
    parseRef (sch ++ str "://" ++ host ++ rest)
      = { scheme := sch, host := host, path := rest.takeWhile (fun c => c ≠ '?'),
          rawQuery := afterChar '?' rest } := by
  have hsplit : (host ++ rest).takeWhile (fun c => c ≠ '/' && c ≠ '?') = host := by
    rw [takeWhile_all_append _ host rest hhost]
    rcases hrest with rfl | ⟨r', rfl⟩
    · simp
    · simp [List.takeWhile_cons]
  have hdrop : (host ++ rest).drop host.length = rest := by
    rw [List.drop_left]
  rcases hsch with rfl | rfl
  · show parseRef ('h' :: 't' :: 't' :: 'p' :: ':' :: '/' :: '/' :: (host ++ rest)) = _
    rw [show parseRef ('h' :: 't' :: 't' :: 'p' :: ':' :: '/' :: '/' :: (host ++ rest))
        = parseAfterScheme (str "http") (host ++ rest) from by
          unfold parseRef
          simp [goStartsWith, str]]
    unfold parseAfterScheme
    simp only [hsplit, hdrop]
  · show parseRef ('h' :: 't' :: 't' :: 'p' :: 's' :: ':' :: '/' :: '/' :: (host ++ rest)) = _
    rw [show parseRef ('h' :: 't' :: 't' :: 'p' :: 's' :: ':' :: '/' :: '/' :: (host ++ rest))
        = parseAfterScheme (str "https") (host ++ rest) from by
          unfold parseRef
          simp [goStartsWith, str]]
    unfold parseAfterScheme
    simp only [hsplit, hdrop]

/-- A safe path character is not a question mark. -/
lemma pathSafeChar_ne_qmark {ch : Char} (h : pathSafeChar ch = true) : ch ≠ '?' := by
  intro hq
  subst hq
  simp [pathSafeChar] at h

/-- C7 counterexample: for the path `//foo` against the base `https://h`, the
built URL keeps both leading slashes — `https://h//foo` — instead of joining
with exactly one separating slash, so the claim fails for paths with more
than one leading slash. -/
theorem buildURL_double_slash_counterexample :
    buildURL exClient (str "//foo") [] = str "https://h//foo" ∧
    buildURL exClient (str "//foo") []
      ≠ trimRightSlash exClient.baseURL
        ++ '/' :: (goTrimSpace (str "//foo")).dropWhile (fun ch => ch = '/') := by
  refine ⟨by decide, by decide⟩

/-- C7 amended: for a scheme-less path whose trimmed form has at most one
leading slash (and safe characters, against a well-formed base), the built
URL is the slash-trimmed base, exactly one `/`, then the path without its
leading slash; a path with two or more leading slashes keeps them all (the
code only adds a missing slash, it never collapses repeated ones). -/
theorem buildURL_relative_single_slash (c : Client) (path : Str)
    (sch host bp : Str)
    (hsch : sch = str "http" ∨ sch = str "https")
    (hbase : trimRightSlash c.baseURL = sch ++ str "://" ++ host ++ bp)
    (hhost : ∀ ch ∈ host, (ch ≠ '/' && ch ≠ '?') = true)
    (hbp : bp = [] ∨ ∃ b', bp = '/' :: b')
    (hbpsafe : ∀ ch ∈ bp, pathSafeChar ch = true)
    (hp1 : goStartsWith (str "http://") path = false)
    (hp2 : goStartsWith (str "https://") path = false)
    (htsafe : ∀ ch ∈ goTrimSpace path, pathSafeChar ch = true)
    (hnodbl : goStartsWith (str "//") (goTrimSpace path) = false) :
    buildURL c path []
      = trimRightSlash c.baseURL
        ++ '/' :: (goTrimSpace path).dropWhile (fun ch => ch = '/') := by
  -- the slash-ensured path equals a single slash before the de-slashed path
  have hA : (if goStartsWith (str "/") (goTrimSpace path) then goTrimSpace path
        else '/' :: goTrimSpace path)
      = '/' :: (goTrimSpace path).dropWhile (fun ch => ch = '/') := by
    rcases ht : goTrimSpace path with _ | ⟨c0, t0⟩
    · simp [goStartsWith, str]
    · by_cases h0 : c0 = '/'
      · subst h0
        rw [ht] at hnodbl
        have ht0 : t0.dropWhile (fun ch => ch = '/') = t0 := by
          rcases t0 with _ | ⟨c1, t1⟩
          · rfl
          · rw [List.dropWhile_cons]
            have hc1 : ¬ c1 = '/' := by
              intro hc
              subst hc
              simp [goStartsWith, str] at hnodbl
            simp [hc1]
        simp [goStartsWith, str, List.dropWhile_cons, ht0]
      · have h0' : ¬ '/' = c0 := fun hh => h0 hh.symm
        simp [goStartsWith, str, h0', h0, List.dropWhile_cons]
  set t' := '/' :: (goTrimSpace path).dropWhile (fun ch => ch = '/') with ht'
  have ht'safe : ∀ ch ∈ t', pathSafeChar ch = true := by
    intro ch hch
    rcases List.mem_cons.mp hch with rfl | hch
    · decide
    · exact htsafe ch (mem_of_mem_dropWhile hch)
  have hrest : ∀ ch ∈ bp ++ t', pathSafeChar ch = true := by
    intro ch hch
    rcases List.mem_append.mp hch with hch | hch
    · exact hbpsafe ch hch
    · exact ht'safe ch hch
  have hparse := parseRef_wellFormed sch host (bp ++ t') hsch hhost
    (by
      rcases hbp with rfl | ⟨b', rfl⟩
      · right
        exact ⟨_, rfl⟩
      · right
        exact ⟨_, rfl⟩)
  have htake : (bp ++ t').takeWhile (fun c => c ≠ '?') = bp ++ t' := by
    rw [List.takeWhile_eq_self_iff]
    intro x hx
    simpa using pathSafeChar_ne_qmark (hrest x hx)
  have hafter : afterChar '?' (bp ++ t') = [] := by
    unfold afterChar
    rw [show (bp ++ t').dropWhile (fun c => c ≠ '?') = [] from by
      rw [List.dropWhile_eq_nil_iff]
      intro x hx
      simpa using pathSafeChar_ne_qmark (hrest x hx)]
  have hschne : sch ≠ [] := by
    rcases hsch with rfl | rfl <;> decide
  -- evaluate buildURL down the relative branch
  unfold buildURL
  rw [hp1, hp2]
  simp only [Bool.or_self, Bool.false_eq_true, if_false, List.length_nil, if_pos rfl]
  rw [hA, hbase]
  rw [show sch ++ str "://" ++ host ++ bp ++ t'
      = sch ++ str "://" ++ host ++ (bp ++ t') from by simp [List.append_assoc]]
  rw [hparse]
  unfold serializeURL
  simp only [htake, hafter, if_neg hschne, if_pos rfl]
  rw [escapePath_all_safe _ hrest]
  simp [List.append_assoc]

/-- Witness for `buildURL_relative_single_slash`: the path `repositories/ws`
against the base `https://h` builds `https://h/repositories/ws` with exactly
one separating slash. -/
theorem buildURL_relative_single_slash_example :
    trimRightSlash exClient.baseURL = str "https" ++ str "://" ++ str "h" ++ [] ∧
    goStartsWith (str "//") (goTrimSpace (str "repositories/ws")) = false ∧
    buildURL exClient (str "repositories/ws") [] = str "https://h/repositories/ws" := by
  have h := buildURL_relative_single_slash exClient (str "repositories/ws")
    (str "https") (str "h") [] (Or.inr rfl) (by decide) (by decide) (Or.inl rfl)
    (by decide) (by decide) (by decide) (by decide) (by decide)
  exact ⟨by decide, by decide, h.trans (by decide)⟩
